import Mathlib

/-!
Verification development for the FOM-Generation tool (src/Main.py).

The program is a linear pipeline: load spreadsheet rows, extract chart
metadata, resolve a SOTA reference line (override formula or fit of
competitor rows), render a scatter plot. The definitions below are a
shallow embedding of that pipeline, translated from the source:

- Cells that can be null are modelled as Option values (pandas NaN).
- Python floats are idealised as rationals; the renderer uses reals
  where the source calls transcendental functions (log10, powers).
- The regex in parse_sota_override is deterministic: every greedy
  sub-pattern is followed by a token disjoint from its character class,
  and the trailing group matches the empty string, so maximal munch
  without backtracking computes exactly the match found by re.search.
  It is embedded as a direct scanner below, with re.search modelled as
  the leftmost starting position at which the pattern matches.
- Exceptions (KeyError from a missing column, ValueError from float on
  a bad literal) are modelled with Except.
-/

set_option linter.unusedVariables false

/-- Character class of the regex token for whitespace, ASCII part: space,
tab, newline, vertical tab, form feed, carriage return. -/
def isSpaceB (c : Char) : Bool :=
  c.toNat == 32 || c.toNat == 9 || c.toNat == 10 || c.toNat == 11 ||
    c.toNat == 12 || c.toNat == 13

/-- Character class of the regex digit token, ASCII part: 0-9. -/
def isDigitB (c : Char) : Bool :=
  48 ≤ c.toNat && c.toNat ≤ 57

/-- Character class of the slope group in the regex of
parse_sota_override: digits and the dot. -/
def isDigitDot (c : Char) : Bool :=
  isDigitB c || c.toNat == 46

/-- Character class of the intercept group in the regex of
parse_sota_override: digits, the dot and the minus sign. -/
def isDigitDotMinus (c : Char) : Bool :=
  isDigitDot c || c.toNat == 45

/-- Greedy whitespace star of the regex: drop the maximal run of
whitespace characters. -/
def skipWS : List Char → List Char
  | [] => []
  | c :: cs => if isSpaceB c then skipWS cs else c :: cs

/-- Greedy character-class star of the regex: split off the maximal
run of characters satisfying p. -/
def takeRun (p : Char → Bool) : List Char → List Char × List Char
  | [] => ([], [])
  | c :: cs =>
    if p c then
      let r := takeRun p cs
      (c :: r.1, r.2)
    else ([], c :: cs)

/-- The regex of parse_sota_override tried at one starting position.
Source regex, line 43 of src/Main.py: literal y, whitespace, literal =,
whitespace, group 1 of one or more digit-or-dot characters, whitespace,
literal star, whitespace, literal x, whitespace, an optional plus sign,
whitespace, group 2 of zero or more digit-dot-minus characters. Returns
the two captured groups on success. As argued in the header, greedy
maximal munch is exact for this pattern. -/
def matchAt (cs : List Char) : Option (List Char × List Char) :=
  match cs with
  | 'y' :: r1 =>
    match skipWS r1 with
    | '=' :: r2 =>
      let t1 := takeRun isDigitDot (skipWS r2)
      if t1.1.isEmpty then none
      else
        match skipWS t1.2 with
        | '*' :: r5 =>
          match skipWS r5 with
          | 'x' :: r6 =>
            let r7 := skipWS r6
            let r8 := match r7 with
              | c :: t => if c == '+' then skipWS t else r7
              | [] => r7
            some (t1.1, (takeRun isDigitDotMinus r8).1)
          | _ => none
        | _ => none
    | _ => none
  | _ => none

/-- re.search: try the pattern at each starting position from the left,
return the first success. -/
def reSearch : List Char → Option (List Char × List Char)
  | [] => none
  | c :: cs =>
    match matchAt (c :: cs) with
    | some r => some r
    | none => reSearch cs

/-- Value of a run of ASCII digits, most significant first. -/
def digitsVal (cs : List Char) : ℕ :=
  cs.foldl (fun a c => 10 * a + (c.toNat - 48)) 0

/-- Python float() on an unsigned string drawn from digits and dots:
accepts digits, digits dot digits, dot digits or digits dot, with at
least one digit and at most one dot; anything else (a second dot, a
stray minus further in, whitespace, nothing at all) raises, modelled as
none. -/
def decimalCore (cs : List Char) : Option ℚ :=
  match cs.span isDigitB with
  | (ip, rest) =>
    match rest with
    | [] => if ip.isEmpty then none else some ((digitsVal ip : ℚ))
    | c :: fr =>
      if c.toNat == 46 && fr.all isDigitB && !(ip.isEmpty && fr.isEmpty) then
        some ((digitsVal ip : ℚ) + (digitsVal fr : ℚ) / (10 : ℚ) ^ fr.length)
      else none

/-- Python float() on the strings that the two capture groups can
produce (characters limited to digits, dot, minus): an optional leading
minus sign followed by an unsigned decimal literal. -/
def parseDecimal : List Char → Option ℚ
  | [] => none
  | c :: cs =>
    if c.toNat == 45 then (decimalCore cs).map (fun q => -q)
    else decimalCore (c :: cs)

/-- A loaded data row: dropna has already removed null FOM cells, so
both FOM fields are plain rationals (src/Main.py line 26 establishes
this; see the loader theorems). -/
structure Row where
  id : String
  label : String
  xfom : ℚ
  yfom : ℚ
deriving DecidableEq, Repr

/-- A raw spreadsheet row as read by pandas, before dropna: either FOM
cell may be null. -/
structure RawRow where
  id : String
  label : String
  xfom : Option ℚ
  yfom : Option ℚ
deriving DecidableEq, Repr

/-- The loaded sheet. Metadata columns are optional (outer Option: the
column may be absent from the sheet) lists of nullable cells (inner
Option: a cell may be empty, pandas NaN). -/
structure DataFrame where
  rows : List Row
  chartTitle : Option (List (Option String))
  xfomName : Option (List (Option String))
  yfomName : Option (List (Option String))
  sotaOverride : Option (List (Option String))
deriving Repr

/-- Python exceptions that the embedded fragment can raise: KeyError
from indexing a missing column, ValueError from float() on a bad
literal. -/
inductive PyErr where
  | keyError : PyErr
  | valueError : PyErr
deriving DecidableEq, Repr

/-- load_fom_data, line 26 of src/Main.py: dropna with subset X FOM,
Y FOM keeps exactly the rows in which both FOM cells are non-null, in
order. -/
def load_fom_data (rows : List RawRow) : List RawRow :=
  rows.filter (fun r => r.xfom.isSome && r.yfom.isSome)

/-- Default chart title of get_chart_metadata. -/
def defaultTitle : String := "Figure of Merit (FOM) Scatter Plot"

/-- Default x axis name of get_chart_metadata. -/
def defaultXName : String := "X FOM"

/-- Default y axis name of get_chart_metadata. -/
def defaultYName : String := "Y FOM"

/-- The column-read idiom of get_chart_metadata, lines 34-36: if the
column exists and has a non-null cell, the first such cell, else the
default. -/
def firstNonNull (col : Option (List (Option String))) (dflt : String) : String :=
  match col with
  | none => dflt
  | some cells =>
    match cells.filterMap id with
    | [] => dflt
    | v :: _ => v

/-- get_chart_metadata, lines 32-37 of src/Main.py. -/
def get_chart_metadata (df : DataFrame) : String × String × String :=
  (firstNonNull df.chartTitle defaultTitle,
   firstNonNull df.xfomName defaultXName,
   firstNonNull df.yfomName defaultYName)

/-- parse_sota_override, lines 39-48 of src/Main.py. Indexing the
SOTA Override column raises KeyError when the column is absent (the
source has no existence guard, unlike get_chart_metadata). Otherwise
dropna keeps the non-null cells; if none remain the parser returns
None. On the first non-null cell the regex is searched; no match also
returns None. On a match, float() of group 1 gives the slope and, when
group 2 is non-empty, float() of group 2 gives the intercept (else 0);
float() can raise ValueError. The closure returned on success at line
47 is represented by the pair (slope, intercept) it captures. -/
def parse_sota_override (df : DataFrame) : Except PyErr (Option (ℚ × ℚ)) :=
  match df.sotaOverride with
  | none => .error .keyError
  | some col =>
    match col.filterMap id with
    | [] => .ok none
    | v :: _ =>
      match reSearch v.toList with
      | none => .ok none
      | some g =>
        match parseDecimal g.1 with
        | none => .error .valueError
        | some slope =>
          if g.2.isEmpty then .ok (some (slope, 0))
          else
            match parseDecimal g.2 with
            | none => .error .valueError
            | some intercept => .ok (some (slope, intercept))

/-- ID prefix that selects competitor rows. -/
def compPrefix : String := "COMP"

/-- Python str.startswith, expressed on the character lists of the two
strings. -/
def strStartsWith (s p : String) : Bool :=
  p.toList.isPrefixOf s.toList

/-- Line 52 of src/Main.py: the competitor rows, those whose ID starts
with COMP. -/
def comp_rows (df : DataFrame) : List Row :=
  df.rows.filter (fun r => strStartsWith r.id compPrefix)

/-- Sum of the X FOM column of a row list. -/
def sumX (l : List Row) : ℚ := (l.map Row.xfom).sum

/-- Sum of the Y FOM column of a row list. -/
def sumY (l : List Row) : ℚ := (l.map Row.yfom).sum

/-- Sum of the squared X FOM values of a row list. -/
def sumXX (l : List Row) : ℚ := (l.map (fun r => r.xfom ^ 2)).sum

/-- Sum of the products X FOM times Y FOM of a row list. -/
def sumXY (l : List Row) : ℚ := (l.map (fun r => r.xfom * r.yfom)).sum

/-- Determinant of the normal equations of the least-squares line. -/
def olsDenom (l : List Row) : ℚ := l.length * sumXX l - sumX l ^ 2

/-- Fitted slope of the least-squares line through the (X FOM, Y FOM)
pairs of a row list. curve_fit with the linear model of lines 64-65 of
src/Main.py computes the least-squares solution (the spec notes it is
equivalent to ordinary least squares for a linear model); it is
embedded as the exact normal-equations solution over the rationals. -/
def ols_a (l : List Row) : ℚ :=
  (l.length * sumXY l - sumX l * sumY l) / olsDenom l

/-- Fitted intercept of the least-squares line, see ols_a. -/
def ols_b (l : List Row) : ℚ :=
  (sumY l - ols_a l * sumX l) / l.length

/-- compute_sota_auto, lines 50-70 of src/Main.py: no competitor rows
gives the constant zero function; exactly one gives the constant
function at its Y FOM; two or more give the fitted line. -/
def compute_sota_auto (df : DataFrame) : ℚ → ℚ :=
  match comp_rows df with
  | [] => fun _ => 0
  | [r] => fun _ => r.yfom
  | r :: s :: rest => fun x => ols_a (r :: s :: rest) * x + ols_b (r :: s :: rest)

/-- Line 108 of src/Main.py: parse_sota_override(df) or
compute_sota_auto(df). A raised exception propagates; None (falsy)
falls through to the automatic fit; a parsed (slope, intercept) pair
yields the linear function of line 47. -/
def resolve_sota (df : DataFrame) : Except PyErr (ℚ → ℚ) :=
  match parse_sota_override df with
  | .error e => .error e
  | .ok (some p) => .ok (fun x => p.1 * x + p.2)
  | .ok none => .ok (compute_sota_auto df)

/-- pandas Series.min over a non-empty column (the empty case is never
reached under the non-empty hypotheses of the renderer theorems). -/
def colMin : List ℚ → ℚ
  | [] => 0
  | v :: vs => vs.foldl min v

/-- pandas Series.max over a non-empty column, see colMin. -/
def colMax : List ℚ → ℚ
  | [] => 0
  | v :: vs => vs.foldl max v

/-- Line 92 of src/Main.py: the minimum of the X FOM column over all
rows of the sheet. -/
def xminQ (df : DataFrame) : ℚ := colMin (df.rows.map Row.xfom)

/-- Line 92 of src/Main.py: the maximum of the X FOM column over all
rows of the sheet. -/
def xmaxQ (df : DataFrame) : ℚ := colMax (df.rows.map Row.xfom)

/-- numpy log10. -/
noncomputable def log10 (x : ℝ) : ℝ := Real.log x / Real.log 10

/-- numpy logspace with endpoint: n samples 10 to the power of
a + i (b - a) / (n - 1) for i from 0 to n - 1. -/
noncomputable def logspace (a b : ℝ) (n : ℕ) : List ℝ :=
  (List.range n).map
    (fun i : ℕ => (10 : ℝ) ^ (a + (i : ℝ) * (b - a) / ((n : ℝ) - 1)))

/-- Line 92 of src/Main.py: the 100 sample abscissae of the SOTA line,
logspace between log10 of the minimal and log10 of the maximal X FOM. -/
noncomputable def sotaLineXs (df : DataFrame) : List ℝ :=
  logspace (log10 ((xminQ df : ℝ))) (log10 ((xmaxQ df : ℝ))) 100

/-- Line 93 of src/Main.py: the points of the dashed SOTA line, the
reference function evaluated at each sample abscissa. -/
noncomputable def sotaLinePts (df : DataFrame) (f : ℝ → ℝ) : List (ℝ × ℝ) :=
  (sotaLineXs df).map (fun x => (x, f x))

/-! ### Helper lemmas on the scanner -/

theorem skipWS_cons_of_not (c : Char) (cs : List Char) (h : isSpaceB c = false) :
    skipWS (c :: cs) = c :: cs := by
  simp [skipWS, h]

theorem skipWS_append (w r : List Char) (hw : ∀ c ∈ w, isSpaceB c = true) :
    skipWS (w ++ r) = skipWS r := by
  induction w with
  | nil => rfl
  | cons c t ih =>
    have hc : isSpaceB c = true := hw c (List.mem_cons_self c t)
    simp only [List.cons_append, skipWS, hc, if_true]
    exact ih (fun d hd => hw d (List.mem_cons_of_mem c hd))

/-- The head of the list, if any, fails the character class p. -/
def headNot (p : Char → Bool) : List Char → Prop
  | [] => True
  | c :: _ => p c = false

theorem takeRun_not_head (p : Char → Bool) (r : List Char) (h : headNot p r) :
    takeRun p r = ([], r) := by
  cases r with
  | nil => rfl
  | cons c t =>
    have hc : p c = false := h
    simp [takeRun, hc]

theorem takeRun_append (p : Char → Bool) (g r : List Char)
    (hg : ∀ c ∈ g, p c = true) (hr : headNot p r) :
    takeRun p (g ++ r) = (g, r) := by
  induction g with
  | nil => simpa using takeRun_not_head p r hr
  | cons c t ih =>
    have hc : p c = true := hg c (List.mem_cons_self c t)
    have ht := ih (fun d hd => hg d (List.mem_cons_of_mem c hd))
    simp [takeRun, hc, ht]

theorem takeRun_all (p : Char → Bool) (g : List Char) (hg : ∀ c ∈ g, p c = true) :
    takeRun p g = (g, []) := by
  have := takeRun_append p g [] hg trivial
  simpa using this

theorem not_space_of_digitDot (c : Char) (h : isDigitDot c = true) :
    isSpaceB c = false := by
  simp only [isDigitDot, isDigitB, Bool.or_eq_true, Bool.and_eq_true,
    decide_eq_true_eq, beq_iff_eq] at h
  simp only [isSpaceB, Bool.or_eq_false_iff, beq_eq_false_iff_ne, ne_eq]
  omega

theorem not_digitDot_of_space (c : Char) (h : isSpaceB c = true) :
    isDigitDot c = false := by
  simp only [isSpaceB, Bool.or_eq_true, beq_iff_eq] at h
  simp only [isDigitDot, isDigitB, Bool.or_eq_false_iff, Bool.and_eq_false_iff,
    decide_eq_false_iff_not, not_le, beq_eq_false_iff_ne, ne_eq]
  omega

theorem not_space_of_digitDotMinus (c : Char) (h : isDigitDotMinus c = true) :
    isSpaceB c = false := by
  simp only [isDigitDotMinus, isDigitDot, isDigitB, Bool.or_eq_true,
    Bool.and_eq_true, decide_eq_true_eq, beq_iff_eq] at h
  simp only [isSpaceB, Bool.or_eq_false_iff, beq_eq_false_iff_ne, ne_eq]
  omega

theorem headNot_ws_cons (p : Char → Bool) (w : List Char) (d : Char) (r : List Char)
    (hw : ∀ c ∈ w, isSpaceB c = true)
    (hsp : ∀ c, isSpaceB c = true → p c = false)
    (hd : p d = false) : headNot p (w ++ d :: r) := by
  cases w with
  | nil => exact hd
  | cons c t => exact hsp c (hw c (List.mem_cons_self c t))

/-! ### The variance identity behind the least-squares denominator -/

/-- Scaled variance of a list of rationals: the length times the sum of
squares minus the square of the sum. -/
def Dvar (l : List ℚ) : ℚ :=
  l.length * (l.map (fun t => t ^ 2)).sum - l.sum ^ 2

theorem sum_sq_sub (x : ℚ) (l : List ℚ) :
    (l.map (fun t => (x - t) ^ 2)).sum
      = l.length * x ^ 2 - 2 * x * l.sum + (l.map (fun t => t ^ 2)).sum := by
  induction l with
  | nil => simp
  | cons a t ih =>
    simp only [List.map_cons, List.sum_cons, ih, List.length_cons]
    push_cast
    ring

theorem sum_sq_sub_nonneg (x : ℚ) (l : List ℚ) :
    0 ≤ (l.map (fun t => (x - t) ^ 2)).sum := by
  apply List.sum_nonneg
  intro y hy
  obtain ⟨t, ht, rfl⟩ := List.mem_map.1 hy
  positivity

theorem Dvar_cons (x : ℚ) (l : List ℚ) :
    Dvar (x :: l) = (l.map (fun t => (x - t) ^ 2)).sum + Dvar l := by
  simp only [Dvar, List.length_cons, List.map_cons, List.sum_cons, sum_sq_sub]
  push_cast
  ring

theorem Dvar_nonneg (l : List ℚ) : 0 ≤ Dvar l := by
  induction l with
  | nil => simp [Dvar]
  | cons x t ih =>
    rw [Dvar_cons]
    exact add_nonneg (sum_sq_sub_nonneg x t) ih

theorem Dvar_pos (l : List ℚ) (u v : ℚ) (hu : u ∈ l) (hv : v ∈ l) (hne : u ≠ v) :
    0 < Dvar l := by
  induction l with
  | nil => cases hu
  | cons x t ih =>
    rw [Dvar_cons]
    rcases List.mem_cons.1 hu with rfl | hut
    · rcases List.mem_cons.1 hv with rfl | hvt
      · exact absurd rfl hne
      · have hxv : u - v ≠ 0 := sub_ne_zero.2 hne
        have hp : 0 < (u - v) ^ 2 :=
          lt_of_le_of_ne (sq_nonneg _) (Ne.symm (pow_ne_zero 2 hxv))
        have hle : (u - v) ^ 2 ≤ (t.map (fun w => (u - w) ^ 2)).sum := by
          apply List.single_le_sum
          · intro y hy
            obtain ⟨w, hw, rfl⟩ := List.mem_map.1 hy
            positivity
          · exact List.mem_map_of_mem _ hvt
        exact add_pos_of_pos_of_nonneg (lt_of_lt_of_le hp hle) (Dvar_nonneg t)
    · rcases List.mem_cons.1 hv with rfl | hvt
      · have hxu : v - u ≠ 0 := sub_ne_zero.2 (Ne.symm hne)
        have hp : 0 < (v - u) ^ 2 :=
          lt_of_le_of_ne (sq_nonneg _) (Ne.symm (pow_ne_zero 2 hxu))
        have hle : (v - u) ^ 2 ≤ (t.map (fun w => (v - w) ^ 2)).sum := by
          apply List.single_le_sum
          · intro y hy
            obtain ⟨w, hw, rfl⟩ := List.mem_map.1 hy
            positivity
          · exact List.mem_map_of_mem _ hut
        exact add_pos_of_pos_of_nonneg (lt_of_lt_of_le hp hle) (Dvar_nonneg t)
      · exact add_pos_of_nonneg_of_pos (sum_sq_sub_nonneg x t) (ih hut hvt)

theorem olsDenom_eq_Dvar (l : List Row) :
    olsDenom l = Dvar (l.map Row.xfom) := by
  unfold olsDenom Dvar sumXX sumX
  rw [List.map_map, List.length_map]
  rfl

/-! ### Exact recovery of a line by the least-squares fit -/

theorem sumY_line (l : List Row) (a b : ℚ)
    (h : ∀ r ∈ l, r.yfom = a * r.xfom + b) :
    sumY l = a * sumX l + l.length * b := by
  induction l with
  | nil => simp [sumY, sumX]
  | cons r t ih =>
    have hr := h r (List.mem_cons_self r t)
    have ht := ih (fun s hs => h s (List.mem_cons_of_mem r hs))
    simp only [sumY, sumX, List.map_cons, List.sum_cons, List.length_cons] at *
    rw [hr, ht]
    push_cast
    ring

theorem sumXY_line (l : List Row) (a b : ℚ)
    (h : ∀ r ∈ l, r.yfom = a * r.xfom + b) :
    sumXY l = a * sumXX l + b * sumX l := by
  induction l with
  | nil => simp [sumXY, sumXX, sumX]
  | cons r t ih =>
    have hr := h r (List.mem_cons_self r t)
    have ht := ih (fun s hs => h s (List.mem_cons_of_mem r hs))
    simp only [sumXY, sumXX, sumX, List.map_cons, List.sum_cons] at *
    rw [hr, ht]
    ring

theorem ols_a_line (l : List Row) (a b : ℚ)
    (h : ∀ r ∈ l, r.yfom = a * r.xfom + b) (hD : olsDenom l ≠ 0) :
    ols_a l = a := by
  unfold ols_a
  rw [sumXY_line l a b h, sumY_line l a b h]
  have key : (l.length : ℚ) * (a * sumXX l + b * sumX l)
      - sumX l * (a * sumX l + l.length * b) = a * olsDenom l := by
    unfold olsDenom
    ring
  rw [key, mul_div_assoc, div_self hD, mul_one]

theorem ols_b_line (l : List Row) (a b : ℚ)
    (h : ∀ r ∈ l, r.yfom = a * r.xfom + b) (hD : olsDenom l ≠ 0) (hl : l ≠ []) :
    ols_b l = b := by
  unfold ols_b
  rw [sumY_line l a b h, ols_a_line l a b h hD]
  have hn : (l.length : ℚ) ≠ 0 := by
    have : l.length ≠ 0 := fun h0 => hl (List.length_eq_zero.1 h0)
    exact_mod_cast this
  have key : a * sumX l + (l.length : ℚ) * b - a * sumX l = (l.length : ℚ) * b := by
    ring
  rw [key, mul_comm, mul_div_assoc, div_self hn, mul_one]

/-! ### Computing the scanner on a well-formed override string -/

/-- The general shape of an override string: literal y, whitespace,
equals sign, whitespace, slope literal, whitespace, star, whitespace,
literal x, then whitespace and an optional intercept part. -/
def mkOverride (w1 w2 s w3 w4 w5 tail : List Char) : List Char :=
  'y' :: (w1 ++ '=' :: (w2 ++ (s ++ (w3 ++ '*' :: (w4 ++ 'x' :: (w5 ++ tail))))))

/-- Group 2 of the regex as a function of the text after the literal x
and its following whitespace: consume an optional plus sign and
whitespace, then the maximal digit-dot-minus run. -/
def grp2 (r7 : List Char) : List Char :=
  (takeRun isDigitDotMinus (match r7 with
    | c :: t => if c == '+' then skipWS t else r7
    | [] => r7)).1

theorem matchAt_mkOverride (w1 w2 s w3 w4 w5 tail : List Char)
    (h1 : ∀ c ∈ w1, isSpaceB c = true) (h2 : ∀ c ∈ w2, isSpaceB c = true)
    (h3 : ∀ c ∈ w3, isSpaceB c = true) (h4 : ∀ c ∈ w4, isSpaceB c = true)
    (hs : s ≠ []) (hsd : ∀ c ∈ s, isDigitDot c = true) :
    matchAt (mkOverride w1 w2 s w3 w4 w5 tail)
      = some (s, grp2 (skipWS (w5 ++ tail))) := by
  cases s with
  | nil => exact absurd rfl hs
  | cons c0 s' =>
    have hc0 : isDigitDot c0 = true := hsd c0 (List.mem_cons_self c0 s')
    have e1 : skipWS (w1 ++ '=' :: (w2 ++ ((c0 :: s') ++ (w3 ++ '*' :: (w4 ++ 'x' :: (w5 ++ tail))))))
        = '=' :: (w2 ++ ((c0 :: s') ++ (w3 ++ '*' :: (w4 ++ 'x' :: (w5 ++ tail))))) := by
      rw [skipWS_append _ _ h1]
      exact skipWS_cons_of_not _ _ (by decide)
    have e2 : skipWS (w2 ++ ((c0 :: s') ++ (w3 ++ '*' :: (w4 ++ 'x' :: (w5 ++ tail)))))
        = (c0 :: s') ++ (w3 ++ '*' :: (w4 ++ 'x' :: (w5 ++ tail))) := by
      rw [skipWS_append _ _ h2, List.cons_append]
      exact skipWS_cons_of_not _ _ (not_space_of_digitDot c0 hc0)
    have e3 : takeRun isDigitDot ((c0 :: s') ++ (w3 ++ '*' :: (w4 ++ 'x' :: (w5 ++ tail))))
        = (c0 :: s', w3 ++ '*' :: (w4 ++ 'x' :: (w5 ++ tail))) := by
      apply takeRun_append _ _ _ hsd
      exact headNot_ws_cons _ _ _ _ h3 not_digitDot_of_space (by decide)
    have e4 : skipWS (w3 ++ '*' :: (w4 ++ 'x' :: (w5 ++ tail)))
        = '*' :: (w4 ++ 'x' :: (w5 ++ tail)) := by
      rw [skipWS_append _ _ h3]
      exact skipWS_cons_of_not _ _ (by decide)
    have e5 : skipWS (w4 ++ 'x' :: (w5 ++ tail)) = 'x' :: (w5 ++ tail) := by
      rw [skipWS_append _ _ h4]
      exact skipWS_cons_of_not _ _ (by decide)
    simp only [mkOverride, matchAt, e1, e2, e3, e4, e5, List.isEmpty_cons,
      Bool.false_eq_true, if_false, grp2]

theorem reSearch_of_matchAt (c : Char) (cs : List Char) (r : List Char × List Char)
    (h : matchAt (c :: cs) = some r) : reSearch (c :: cs) = some r := by
  simp [reSearch, h]

theorem skipWS_all (w : List Char) (hw : ∀ c ∈ w, isSpaceB c = true) :
    skipWS w = [] := by
  have := skipWS_append w [] hw
  simpa using this

theorem grp2_empty_tail (w5 : List Char) (h5 : ∀ c ∈ w5, isSpaceB c = true) :
    grp2 (skipWS (w5 ++ [])) = [] := by
  rw [List.append_nil, skipWS_all w5 h5]
  rfl

theorem grp2_plus_tail (w5 w6 t : List Char)
    (h5 : ∀ c ∈ w5, isSpaceB c = true) (h6 : ∀ c ∈ w6, isSpaceB c = true)
    (ht : t ≠ []) (htd : ∀ c ∈ t, isDigitDotMinus c = true) :
    grp2 (skipWS (w5 ++ ('+' :: (w6 ++ t)))) = t := by
  rw [skipWS_append _ _ h5, skipWS_cons_of_not _ _ (by decide)]
  cases t with
  | nil => exact absurd rfl ht
  | cons c0 t' =>
    have hc0 : isDigitDotMinus c0 = true := htd c0 (List.mem_cons_self c0 t')
    have e6 : skipWS (w6 ++ (c0 :: t')) = c0 :: t' := by
      rw [skipWS_append _ _ h6]
      exact skipWS_cons_of_not _ _ (not_space_of_digitDotMinus c0 hc0)
    have hpp : (('+' : Char) == '+') = true := by decide
    simp only [grp2, hpp, if_true, e6, takeRun_all _ _ htd]

theorem grp2_minus_tail (w5 t : List Char)
    (h5 : ∀ c ∈ w5, isSpaceB c = true)
    (htd : ∀ c ∈ ('-' :: t), isDigitDotMinus c = true) :
    grp2 (skipWS (w5 ++ ('-' :: t))) = '-' :: t := by
  rw [skipWS_append _ _ h5, skipWS_cons_of_not _ _ (by decide)]
  have hmp : (('-' : Char) == '+') = false := by decide
  simp [grp2, hmp, takeRun_all _ _ htd]

/-- Computation of the override parser on a well-formed formula string:
the first non-null cell of the SOTA Override column is a string of the
shape mkOverride; the slope literal denotes a and the optional
intercept part denotes b (0 when absent, the value after a plus sign,
or the negated value glued to a minus sign). -/
theorem parse_sota_override_mk (df : DataFrame) (cells : List (Option String))
    (vs : List String) (w1 w2 s w3 w4 w5 tail : List Char) (a b : ℚ)
    (hdf : df.sotaOverride = some cells)
    (hcells : cells.filterMap id = String.mk (mkOverride w1 w2 s w3 w4 w5 tail) :: vs)
    (h1 : ∀ c ∈ w1, isSpaceB c = true) (h2 : ∀ c ∈ w2, isSpaceB c = true)
    (h3 : ∀ c ∈ w3, isSpaceB c = true) (h4 : ∀ c ∈ w4, isSpaceB c = true)
    (h5 : ∀ c ∈ w5, isSpaceB c = true)
    (hsd : ∀ c ∈ s, isDigitDot c = true)
    (ha : parseDecimal s = some a)
    (htail : (tail = [] ∧ b = 0)
      ∨ (∃ w6 t, (∀ c ∈ w6, isSpaceB c = true) ∧ t ≠ []
          ∧ (∀ c ∈ t, isDigitDotMinus c = true) ∧ parseDecimal t = some b
          ∧ tail = '+' :: (w6 ++ t))
      ∨ (∃ t, (∀ c ∈ ('-' :: t), isDigitDotMinus c = true)
          ∧ parseDecimal ('-' :: t) = some b ∧ tail = '-' :: t)) :
    parse_sota_override df = .ok (some (a, b)) := by
  have hs : s ≠ [] := by
    intro h
    rw [h] at ha
    simp [parseDecimal] at ha
  have hmat := matchAt_mkOverride w1 w2 s w3 w4 w5 tail h1 h2 h3 h4 hs hsd
  have hsearch : reSearch (mkOverride w1 w2 s w3 w4 w5 tail)
      = some (s, grp2 (skipWS (w5 ++ tail))) := by
    rw [mkOverride] at hmat ⊢
    exact reSearch_of_matchAt _ _ _ hmat
  have htl : (String.mk (mkOverride w1 w2 s w3 w4 w5 tail)).toList
      = mkOverride w1 w2 s w3 w4 w5 tail := rfl
  rcases htail with ⟨rfl, rfl⟩ | ⟨w6, t, h6, ht, htd, hb, rfl⟩ | ⟨t, htd, hb, rfl⟩
  · have hg : grp2 (skipWS (w5 ++ ([] : List Char))) = [] := grp2_empty_tail w5 h5
    simp only [parse_sota_override, hdf, hcells, htl, hsearch, hg, ha,
      List.isEmpty_nil, if_true]
  · have hg := grp2_plus_tail w5 w6 t h5 h6 ht htd
    cases t with
    | nil => exact absurd rfl ht
    | cons c t' =>
      simp only [parse_sota_override, hdf, hcells, htl, hsearch, hg, ha, hb,
        List.isEmpty_cons, Bool.false_eq_true, if_false]
  · have hg := grp2_minus_tail w5 t h5 htd
    simp only [parse_sota_override, hdf, hcells, htl, hsearch, hg, ha, hb,
      List.isEmpty_cons, Bool.false_eq_true, if_false]

/-! ### Concrete data used by witnesses and counterexamples -/

def idCompA : String := "COMP1"

def idCompB : String := "COMP2"

def idProdA : String := "PROD1"

def lblA : String := "A"

def lblB : String := "B"

/-- Competitor row at (1, 10), from the end-to-end example of the spec. -/
def exCompA : Row := ⟨idCompA, lblA, 1, 10⟩

/-- Competitor row at (2, 20), from the end-to-end example of the spec. -/
def exCompB : Row := ⟨idCompB, lblB, 2, 20⟩

/-- Product row at (5, 1), from the end-to-end example of the spec. -/
def exProdA : Row := ⟨idProdA, lblA, 5, 1⟩

/-- A single competitor row at (3, 7). -/
def exCompC : Row := ⟨idCompA, lblA, 3, 7⟩

/-- A sheet whose SOTA Override column holds exactly the given string. -/
def dfOf (s : String) : DataFrame := ⟨[], none, none, none, some [some s]⟩

def ovrPlusStr : String := "y = 1.5 * x + 2"

def ovrNoIntStr : String := "y = 1.5 * x"

def ovrSpacedMinusStr : String := "y = 2 * x - 3"

def ovrDoubleDotStr : String := "y = 1..2 * x"

def wsp : List Char := [' ']

def slope15 : List Char := ['1', '.', '5']

def digit2 : List Char := ['2']

def digit3 : List Char := ['3']

theorem parseDecimal_slope15 : parseDecimal slope15 = some (3 / 2) := by
  have h : parseDecimal slope15 = some ((1 : ℚ) + (5 : ℚ) / (10 : ℚ) ^ (1 : ℕ)) := rfl
  rw [h]
  norm_num

theorem parseDecimal_digit2 : parseDecimal digit2 = some 2 := by
  have h : parseDecimal digit2 = some ((2 : ℕ) : ℚ) := rfl
  rw [h]
  norm_num

theorem parseDecimal_neg3 : parseDecimal ('-' :: digit3) = some (-3) := by
  have h : parseDecimal ('-' :: digit3) = some (-((3 : ℕ) : ℚ)) := rfl
  rw [h]
  norm_num

/-! ### Claims -/

/-- C2: for every dataset with zero COMP rows, the resolver (when no
override applies) returns, without error, a reference function that
evaluates to 0 at every input. -/
theorem c2_zero_comp_constant_zero (df : DataFrame)
    (hov : parse_sota_override df = .ok none)
    (hcomp : comp_rows df = []) :
    ∃ f, resolve_sota df = .ok f ∧ ∀ x : ℚ, f x = 0 := by
  refine ⟨compute_sota_auto df, ?_, ?_⟩
  · simp only [resolve_sota, hov]
  · intro x
    simp only [compute_sota_auto, hcomp]

/-- A sheet with one product row, no competitor rows, and an SOTA
Override column with no cells. -/
def dfNoComp : DataFrame := ⟨[exProdA], none, none, none, some []⟩

theorem c2_witness :
    parse_sota_override dfNoComp = .ok none ∧ comp_rows dfNoComp = []
      ∧ ∃ f, resolve_sota dfNoComp = .ok f ∧ ∀ x : ℚ, f x = 0 :=
  ⟨rfl, by decide, c2_zero_comp_constant_zero dfNoComp rfl (by decide)⟩

/-- C3: for every dataset with exactly one COMP row, the resolver (when
no override applies) returns a reference function constantly equal to
the Y FOM of that row. -/
theorem c3_one_comp_constant (df : DataFrame) (r : Row)
    (hov : parse_sota_override df = .ok none)
    (hcomp : comp_rows df = [r]) :
    ∃ f, resolve_sota df = .ok f ∧ ∀ x : ℚ, f x = r.yfom := by
  refine ⟨compute_sota_auto df, ?_, ?_⟩
  · simp only [resolve_sota, hov]
  · intro x
    simp only [compute_sota_auto, hcomp]

/-- A sheet with one product row, one competitor row, and an SOTA
Override column holding a single null cell. -/
def dfOneComp : DataFrame := ⟨[exProdA, exCompC], none, none, none, some [none]⟩

theorem c3_witness :
    parse_sota_override dfOneComp = .ok none ∧ comp_rows dfOneComp = [exCompC]
      ∧ ∃ f, resolve_sota dfOneComp = .ok f ∧ ∀ x : ℚ, f x = exCompC.yfom :=
  ⟨rfl, by decide, c3_one_comp_constant dfOneComp exCompC rfl (by decide)⟩

/-- C5: the claim says a dataset whose sheet has no SOTA Override
column falls through to the automatic fit; the code instead raises
KeyError at the unguarded column access of line 41 and the resolver
propagates it. This theorem evaluates the code on every such input. -/
theorem c5_missing_override_column_keyerror (df : DataFrame)
    (h : df.sotaOverride = none) :
    resolve_sota df = .error .keyError := by
  simp only [resolve_sota, parse_sota_override, h]

/-- A sheet with data rows and no SOTA Override column, the failing
input of claim C5. -/
def dfNoOverrideCol : DataFrame := ⟨[exProdA, exCompA, exCompB], none, none, none, none⟩

theorem c5_witness :
    dfNoOverrideCol.sotaOverride = none
      ∧ resolve_sota dfNoOverrideCol = .error .keyError :=
  ⟨rfl, c5_missing_override_column_keyerror dfNoOverrideCol rfl⟩

/-- C10: there exist non-empty override strings on which the parser
raises rather than returning a function or falling through: with
spaces around the minus sign group 2 captures just the minus sign, and
a double dot makes group 1 a bad literal; float() raises ValueError on
both. -/
theorem c10_parser_crash_examples :
    parse_sota_override (dfOf ovrSpacedMinusStr) = .error .valueError
      ∧ parse_sota_override (dfOf ovrDoubleDotStr) = .error .valueError :=
  ⟨rfl, rfl⟩

/-- C4: the override parser maps the first example string to slope 1.5
and intercept 2, the second to slope 1.5 and intercept 0 (the intercept
defaults to 0 when absent), and the resolver turns each into the
corresponding linear function. -/
theorem c4_override_examples :
    (parse_sota_override (dfOf ovrPlusStr) = .ok (some (3 / 2, 2))
      ∧ ∃ f, resolve_sota (dfOf ovrPlusStr) = .ok f
          ∧ ∀ x : ℚ, f x = 3 / 2 * x + 2)
    ∧ (parse_sota_override (dfOf ovrNoIntStr) = .ok (some (3 / 2, 0))
      ∧ ∃ g, resolve_sota (dfOf ovrNoIntStr) = .ok g
          ∧ ∀ x : ℚ, g x = 3 / 2 * x) := by
  have hp : parse_sota_override (dfOf ovrPlusStr) = .ok (some (3 / 2, 2)) :=
    parse_sota_override_mk (dfOf ovrPlusStr) [some ovrPlusStr] [] wsp wsp slope15
      wsp wsp wsp ('+' :: (wsp ++ digit2)) (3 / 2) 2 rfl (by decide) (by decide)
      (by decide) (by decide) (by decide) (by decide) (by decide) parseDecimal_slope15
      (Or.inr (Or.inl ⟨wsp, digit2, by decide, by decide, by decide,
        parseDecimal_digit2, rfl⟩))
  have hq : parse_sota_override (dfOf ovrNoIntStr) = .ok (some (3 / 2, 0)) :=
    parse_sota_override_mk (dfOf ovrNoIntStr) [some ovrNoIntStr] [] wsp wsp slope15
      wsp wsp [] [] (3 / 2) 0 rfl (by decide) (by decide) (by decide) (by decide)
      (by decide) (by decide) (by decide) parseDecimal_slope15 (Or.inl ⟨rfl, rfl⟩)
  refine ⟨⟨hp, ⟨fun x => 3 / 2 * x + 2, ?_, fun x => rfl⟩⟩,
    ⟨hq, ⟨fun x => 3 / 2 * x + 0, ?_, fun x => add_zero _⟩⟩⟩
  · simp only [resolve_sota, hp]
  · simp only [resolve_sota, hq]

/-- C6 counterexample: on the string y = 2 * x - 3, given by the claim
itself as an example with whitespace around the minus sign, the code
raises ValueError instead of returning the linear function with slope 2
and intercept -3. -/
theorem c6_counterexample :
    ¬ ∃ f, resolve_sota (dfOf ovrSpacedMinusStr) = .ok f
        ∧ ∀ x : ℚ, f x = 2 * x + (-3) := by
  rintro ⟨f, hf, hv⟩
  have he : resolve_sota (dfOf ovrSpacedMinusStr) = .error .valueError := rfl
  rw [he] at hf
  exact Except.noConfusion hf

/-- C6 (amended): for every override string of the shape
y = slope * x with optional intercept, whitespace-tolerant except that
a negative intercept must glue the minus sign to its digits (a plus
intercept tolerates whitespace on both sides), where the slope literal
denotes a and the intercept part denotes b (0 when absent), the parser
accepts it and the resolver returns the linear function with slope a
and intercept b. -/
theorem c6_amended_override_syntax (df : DataFrame) (cells : List (Option String))
    (vs : List String) (w1 w2 s w3 w4 w5 tail : List Char) (a b : ℚ)
    (hdf : df.sotaOverride = some cells)
    (hcells : cells.filterMap id = String.mk (mkOverride w1 w2 s w3 w4 w5 tail) :: vs)
    (h1 : ∀ c ∈ w1, isSpaceB c = true) (h2 : ∀ c ∈ w2, isSpaceB c = true)
    (h3 : ∀ c ∈ w3, isSpaceB c = true) (h4 : ∀ c ∈ w4, isSpaceB c = true)
    (h5 : ∀ c ∈ w5, isSpaceB c = true)
    (hsd : ∀ c ∈ s, isDigitDot c = true)
    (ha : parseDecimal s = some a)
    (htail : (tail = [] ∧ b = 0)
      ∨ (∃ w6 t, (∀ c ∈ w6, isSpaceB c = true) ∧ t ≠ []
          ∧ (∀ c ∈ t, isDigitDotMinus c = true) ∧ parseDecimal t = some b
          ∧ tail = '+' :: (w6 ++ t))
      ∨ (∃ t, (∀ c ∈ ('-' :: t), isDigitDotMinus c = true)
          ∧ parseDecimal ('-' :: t) = some b ∧ tail = '-' :: t)) :
    ∃ f, resolve_sota df = .ok f ∧ ∀ x : ℚ, f x = a * x + b := by
  have hp := parse_sota_override_mk df cells vs w1 w2 s w3 w4 w5 tail a b hdf
    hcells h1 h2 h3 h4 h5 hsd ha htail
  exact ⟨fun x => a * x + b, by simp only [resolve_sota, hp], fun x => rfl⟩

/-- The sheet whose override string is y = 2 * x -3, with no space
between the minus sign and the intercept digits. -/
def dfGluedMinus : DataFrame :=
  dfOf (String.mk (mkOverride wsp wsp digit2 wsp wsp wsp ('-' :: digit3)))

theorem c6_amended_witness :
    parseDecimal digit2 = some 2 ∧ parseDecimal ('-' :: digit3) = some (-3)
      ∧ ∃ f, resolve_sota dfGluedMinus = .ok f ∧ ∀ x : ℚ, f x = 2 * x + (-3) :=
  ⟨parseDecimal_digit2, parseDecimal_neg3,
    c6_amended_override_syntax dfGluedMinus
      [some (String.mk (mkOverride wsp wsp digit2 wsp wsp wsp ('-' :: digit3)))] []
      wsp wsp digit2 wsp wsp wsp ('-' :: digit3) 2 (-3) rfl rfl (by decide)
      (by decide) (by decide) (by decide) (by decide) (by decide) parseDecimal_digit2
      (Or.inr (Or.inr ⟨digit3, by decide, parseDecimal_neg3, rfl⟩))⟩

theorem length_filter_eq_sub {α : Type} (l : List α) (p : α → Bool) :
    (l.filter p).length = l.length - (l.filter (fun a => !(p a))).length := by
  induction l with
  | nil => rfl
  | cons a t ih =>
    have hle := List.length_filter_le (fun a => !(p a)) t
    cases h : p a
    · simp only [List.filter_cons, h, Bool.not_false, if_true, if_false,
        Bool.false_eq_true, List.length_cons]
      omega
    · simp only [List.filter_cons, h, Bool.not_true, if_true, if_false,
        Bool.false_eq_true, List.length_cons]
      omega

/-- C7: the loader keeps exactly the rows with both FOM cells present:
every surviving row has non-null X FOM and Y FOM, the row count drops
by exactly the number of rows with a missing FOM cell, and the
surviving rows appear unchanged and in order (the result is a sublist
containing every row that had both cells). -/
theorem c7_loader (rows : List RawRow) :
    (∀ r ∈ load_fom_data rows, r.xfom ≠ none ∧ r.yfom ≠ none)
    ∧ (load_fom_data rows).length
        = rows.length - (rows.filter (fun r => !(r.xfom.isSome && r.yfom.isSome))).length
    ∧ (load_fom_data rows).Sublist rows
    ∧ (∀ r ∈ rows, r.xfom ≠ none → r.yfom ≠ none → r ∈ load_fom_data rows) := by
  refine ⟨?_, ?_, ?_, ?_⟩
  · intro r hr
    simp only [load_fom_data, List.mem_filter, Bool.and_eq_true,
      Option.isSome_iff_ne_none] at hr
    exact ⟨hr.2.1, hr.2.2⟩
  · exact length_filter_eq_sub rows _
  · exact List.filter_sublist _
  · intro r hr hx hy
    simp only [load_fom_data, List.mem_filter, Bool.and_eq_true,
      Option.isSome_iff_ne_none]
    exact ⟨hr, hx, hy⟩

/-- A raw row with both FOM cells present. -/
def rawGood : RawRow := ⟨idProdA, lblA, some 1, some 2⟩

/-- A raw row with a missing X FOM cell. -/
def rawBad : RawRow := ⟨idProdA, lblB, none, some 3⟩

def rawRowsW : List RawRow := [rawGood, rawBad]

theorem c7_witness :
    ((load_fom_data rawRowsW).length
      = rawRowsW.length
        - (rawRowsW.filter (fun r => !(r.xfom.isSome && r.yfom.isSome))).length)
    ∧ rawGood ∈ load_fom_data rawRowsW :=
  ⟨(c7_loader rawRowsW).2.1,
   (c7_loader rawRowsW).2.2.2 rawGood (by decide) (by decide) (by decide)⟩

theorem firstNonNull_cases (col : Option (List (Option String))) (dflt : String) :
    (col = none → firstNonNull col dflt = dflt)
    ∧ (∀ cells, col = some cells → cells.filterMap id = [] →
        firstNonNull col dflt = dflt)
    ∧ (∀ cells v rest, col = some cells → cells.filterMap id = v :: rest →
        firstNonNull col dflt = v) := by
  refine ⟨?_, ?_, ?_⟩
  · rintro rfl
    rfl
  · rintro cells rfl h
    simp only [firstNonNull, h]
  · rintro cells v rest rfl h
    simp only [firstNonNull, h]

/-- C8: the metadata extractor is total by construction, and for each
of the three metadata columns it returns the first non-null value when
the column exists and has one, and the fixed default otherwise (column
absent or all cells null). -/
theorem c8_metadata_defaults (df : DataFrame) :
    ((df.chartTitle = none → (get_chart_metadata df).1 = defaultTitle)
      ∧ (∀ cells, df.chartTitle = some cells → cells.filterMap id = [] →
          (get_chart_metadata df).1 = defaultTitle)
      ∧ (∀ cells v rest, df.chartTitle = some cells → cells.filterMap id = v :: rest →
          (get_chart_metadata df).1 = v))
    ∧ ((df.xfomName = none → (get_chart_metadata df).2.1 = defaultXName)
      ∧ (∀ cells, df.xfomName = some cells → cells.filterMap id = [] →
          (get_chart_metadata df).2.1 = defaultXName)
      ∧ (∀ cells v rest, df.xfomName = some cells → cells.filterMap id = v :: rest →
          (get_chart_metadata df).2.1 = v))
    ∧ ((df.yfomName = none → (get_chart_metadata df).2.2 = defaultYName)
      ∧ (∀ cells, df.yfomName = some cells → cells.filterMap id = [] →
          (get_chart_metadata df).2.2 = defaultYName)
      ∧ (∀ cells v rest, df.yfomName = some cells → cells.filterMap id = v :: rest →
          (get_chart_metadata df).2.2 = v)) :=
  ⟨firstNonNull_cases df.chartTitle defaultTitle,
   firstNonNull_cases df.xfomName defaultXName,
   firstNonNull_cases df.yfomName defaultYName⟩

def titleVal : String := "My Chart"

/-- A sheet with a Chart Title column whose first non-null cell is
titleVal, no X FOM Name column, and an all-null Y FOM Name column. -/
def dfC8w : DataFrame := ⟨[], some [none, some titleVal], none, some [], none⟩

theorem c8_witness :
    (get_chart_metadata dfC8w).1 = titleVal
    ∧ (get_chart_metadata dfC8w).2.1 = defaultXName
    ∧ (get_chart_metadata dfC8w).2.2 = defaultYName :=
  ⟨(c8_metadata_defaults dfC8w).1.2.2 [none, some titleVal] titleVal [] rfl rfl,
   (c8_metadata_defaults dfC8w).2.1.1 rfl,
   (c8_metadata_defaults dfC8w).2.2.2.1 [] rfl rfl⟩

/-- C1: when the competitor rows lie exactly on the line with slope a
and intercept b, and two of them have distinct abscissae (without which
the line through the points is not unique), the automatic fit returns
exactly that line. -/
theorem c1_collinear_fit_exact (df : DataFrame) (a b : ℚ)
    (hcol : ∀ r ∈ comp_rows df, r.yfom = a * r.xfom + b)
    (hdist : ∃ r ∈ comp_rows df, ∃ s ∈ comp_rows df, r.xfom ≠ s.xfom) :
    ∀ x : ℚ, compute_sota_auto df x = a * x + b := by
  obtain ⟨r, hr, s, hs, hne⟩ := hdist
  have hD : olsDenom (comp_rows df) ≠ 0 := by
    rw [olsDenom_eq_Dvar]
    exact ne_of_gt (Dvar_pos _ _ _ (List.mem_map_of_mem _ hr)
      (List.mem_map_of_mem _ hs) hne)
  intro x
  cases hcr : comp_rows df with
  | nil =>
    rw [hcr] at hr
    cases hr
  | cons r0 t =>
    cases t with
    | nil =>
      rw [hcr] at hr hs
      have h1 : r = r0 := by simpa using hr
      have h2 : s = r0 := by simpa using hs
      rw [h1, h2] at hne
      exact absurd rfl hne
    | cons r1 t2 =>
      rw [hcr] at hcol hD
      simp only [compute_sota_auto, hcr]
      rw [ols_a_line _ a b hcol hD, ols_b_line _ a b hcol hD (by simp)]

/-- The dataset of the end-to-end example: competitor rows (1, 10) and
(2, 20) and product row (5, 1), with no SOTA Override column needed by
the automatic fit. -/
def dfTwoComp : DataFrame := ⟨[exCompA, exCompB, exProdA], none, none, none, none⟩

theorem c1_witness :
    (∀ r ∈ comp_rows dfTwoComp, r.yfom = 10 * r.xfom + 0)
    ∧ (∃ r ∈ comp_rows dfTwoComp, ∃ s ∈ comp_rows dfTwoComp, r.xfom ≠ s.xfom)
    ∧ compute_sota_auto dfTwoComp 5 = 10 * 5 + 0 := by
  have hc : comp_rows dfTwoComp = [exCompA, exCompB] := by decide
  have hcol : ∀ r ∈ comp_rows dfTwoComp, r.yfom = (10 : ℚ) * r.xfom + 0 := by
    rw [hc]
    intro r hr
    rcases List.mem_cons.1 hr with rfl | hr2
    · norm_num [exCompA]
    · rcases List.mem_cons.1 hr2 with rfl | h3
      · norm_num [exCompB]
      · cases h3
  exact ⟨hcol, by decide, c1_collinear_fit_exact dfTwoComp 10 0 hcol (by decide) 5⟩

theorem rpow_log10 (m : ℝ) (hm : 0 < m) : (10 : ℝ) ^ log10 m = m := by
  rw [log10, Real.rpow_def_of_pos (by norm_num : (0:ℝ) < 10), mul_comm,
    div_mul_cancel₀ _ (ne_of_gt (Real.log_pos (by norm_num)))]
  exact Real.exp_log hm

theorem foldl_min_le (vs : List ℚ) (v : ℚ) : vs.foldl min v ≤ v := by
  induction vs generalizing v with
  | nil => exact le_refl v
  | cons w t ih => exact le_trans (ih (min v w)) (min_le_left v w)

theorem le_foldl_max (vs : List ℚ) (v : ℚ) : v ≤ vs.foldl max v := by
  induction vs generalizing v with
  | nil => exact le_refl v
  | cons w t ih => exact le_trans (le_max_left v w) (ih (max v w))

theorem colMin_le_colMax (l : List ℚ) (hl : l ≠ []) : colMin l ≤ colMax l := by
  cases l with
  | nil => exact absurd rfl hl
  | cons v vs => exact le_trans (foldl_min_le vs v) (le_foldl_max vs v)

/-- C9: for a non-empty dataset with positive minimal X FOM, the
renderer samples the reference function at exactly 100 logarithmically
spaced abscissae over all rows: the first sample is the minimal X FOM,
the last is the maximal X FOM, the plotted line is the function
evaluated at those samples, and consecutive samples have the constant
ratio of a logarithmic spacing. -/
theorem c9_renderer_samples (df : DataFrame) (f : ℝ → ℝ)
    (hne : df.rows ≠ []) (hmin : 0 < xminQ df) :
    (sotaLineXs df).length = 100
    ∧ (sotaLineXs df).head? = some ((xminQ df : ℝ))
    ∧ (sotaLineXs df).getLast? = some ((xmaxQ df : ℝ))
    ∧ sotaLinePts df f = (sotaLineXs df).map (fun x => (x, f x))
    ∧ (∀ i : ℕ, i + 1 < 100 →
        (sotaLineXs df).getD (i + 1) 0
          = (sotaLineXs df).getD i 0
            * (10 : ℝ) ^ ((log10 ((xmaxQ df : ℝ)) - log10 ((xminQ df : ℝ))) / 99)) := by
  have hmaplne : df.rows.map Row.xfom ≠ [] := by
    intro h
    exact hne (List.map_eq_nil_iff.1 h)
  have hmax : 0 < xmaxQ df :=
    lt_of_lt_of_le hmin (colMin_le_colMax (df.rows.map Row.xfom) hmaplne)
  have hminR : (0 : ℝ) < ((xminQ df : ℝ)) := by exact_mod_cast hmin
  have hmaxR : (0 : ℝ) < ((xmaxQ df : ℝ)) := by exact_mod_cast hmax
  set A := log10 ((xminQ df : ℝ)) with hA
  set B := log10 ((xmaxQ df : ℝ)) with hB
  have hg : ∀ j, j < 100 → (sotaLineXs df).getD j 0
      = (10 : ℝ) ^ (A + (j : ℝ) * (B - A) / (((100 : ℕ) : ℝ) - 1)) := by
    intro j hj
    unfold sotaLineXs logspace
    rw [List.getD_eq_getElem?_getD, List.getElem?_map, List.getElem?_range hj]
    rfl
  refine ⟨?_, ?_, ?_, rfl, ?_⟩
  · simp [sotaLineXs, logspace]
  · have h0 : List.range 100 = 0 :: (List.range 99).map Nat.succ :=
      List.range_succ_eq_map 99
    unfold sotaLineXs logspace
    rw [h0]
    simp only [List.map_cons, List.head?_cons]
    have hexp0 : A + ((0 : ℕ) : ℝ) * (B - A) / (((100 : ℕ) : ℝ) - 1) = A := by
      push_cast
      ring
    rw [hexp0]
    exact congrArg some (rpow_log10 _ hminR)
  · have h99 : List.range 100 = List.range 99 ++ [99] := by
      rw [show (100 : ℕ) = 99 + 1 from rfl, List.range_succ]
    unfold sotaLineXs logspace
    rw [h99, List.map_append]
    simp only [List.map_cons, List.map_nil, List.getLast?_concat]
    have hexp99 : A + ((99 : ℕ) : ℝ) * (B - A) / (((100 : ℕ) : ℝ) - 1) = B := by
      have h1 : (((100 : ℕ) : ℝ) - 1) = 99 := by norm_num
      have h2 : ((99 : ℕ) : ℝ) = 99 := by norm_num
      rw [h1, h2, mul_div_cancel_left₀ _ (by norm_num : (99 : ℝ) ≠ 0)]
      ring
    rw [hexp99]
    exact congrArg some (rpow_log10 _ hmaxR)
  · intro i hi
    rw [hg (i + 1) hi, hg i (by omega),
      ← Real.rpow_add (by norm_num : (0 : ℝ) < 10)]
    congr 1
    push_cast
    ring

/-- The identity reference function, used to instantiate the renderer
theorem. -/
def rExample : ℝ → ℝ := fun x => x

theorem c9_witness :
    dfTwoComp.rows ≠ [] ∧ 0 < xminQ dfTwoComp
    ∧ ((sotaLineXs dfTwoComp).length = 100
      ∧ (sotaLineXs dfTwoComp).head? = some ((xminQ dfTwoComp : ℝ))
      ∧ (sotaLineXs dfTwoComp).getLast? = some ((xmaxQ dfTwoComp : ℝ))
      ∧ sotaLinePts dfTwoComp rExample
          = (sotaLineXs dfTwoComp).map (fun x => (x, rExample x))
      ∧ (∀ i : ℕ, i + 1 < 100 →
          (sotaLineXs dfTwoComp).getD (i + 1) 0
            = (sotaLineXs dfTwoComp).getD i 0
              * (10 : ℝ) ^ ((log10 ((xmaxQ dfTwoComp : ℝ))
                  - log10 ((xminQ dfTwoComp : ℝ))) / 99))) :=
  ⟨by decide, by decide, c9_renderer_samples dfTwoComp rExample (by decide) (by decide)⟩
